import Mathlib

/-!
Verification of the jsh embedded shell: the command-line parser
(tokenizer, statement/pipe splitters, pipeline parser), the statement
interpreter (`process` in `native/shell/shell.go`), and the Unix job
controller (`exec0` in `engine_unix.go`), shallowly embedded in Lean.

The parser functions (`tokenize`, `splitStatements`, `splitPipes`,
`parsePipeline`, `parseCommand`) have no source file in the repository
snapshot — only their tests (`parser_test.go`) and their caller
(`shell.go`) are present — so they are modelled from the specification
(§4.1, §4.2) and validated against the expectations recorded in
`parser_test.go`.
-/

namespace Jsh

/-! ## Data model (spec §3; shapes as used by `parser_test.go`) -/

/-- One redirection: `Type ∈ {"<", ">", ">>"}` and a verbatim `Target`. -/
structure Redirect where
  type : String
  target : String
deriving DecidableEq, Repr

/-- One `|`-delimited stage: verb, arguments, optional redirects. -/
structure Pipeline where
  command : String
  args : List String
  stdin : Option Redirect := none
  stdout : Option Redirect := none
  stderr : Option Redirect := none
deriving DecidableEq, Repr

/-- One `;`/`&&`-delimited unit; `operator` is the operator *following*
the statement (`""` for the last one). -/
structure Statement where
  pipelines : List Pipeline
  operator : String := ""
deriving DecidableEq, Repr

/-- The parse result of one input line. -/
structure Command where
  raw : String
  statements : List Statement
deriving DecidableEq, Repr

/-! ## Tokenizer

`Modelled from the spec:` the tokenizer source (`tokenize` in the shell
package's parser file) is missing from the snapshot; this follows
spec §4.1 — whitespace outside quotes ends the current word (empty words
dropped), quote characters toggle quote mode and are consumed, `>>` is
recognized greedily before `>` and `<`, and each operator is its own token
even when adjacent to a word. -/

inductive QuoteState
  | noQuote
  | inSingle
  | inDouble
deriving DecidableEq, Repr

/-- Emit the pending word, dropping it when empty. -/
def flushWord (cur : List Char) : List String :=
  if cur = [] then [] else [String.mk cur]

def isSpaceChar (c : Char) : Bool := c = ' ' || c = '\t'

def tokenizeAux : List Char → QuoteState → List Char → List String
  | [], _, cur => flushWord cur
  | c :: rest, .noQuote, cur =>
    if c = '\'' then tokenizeAux rest .inSingle cur
    else if c = '"' then tokenizeAux rest .inDouble cur
    else if isSpaceChar c then flushWord cur ++ tokenizeAux rest .noQuote []
    else if c = '>' then
      if rest.head? = some '>' then
        flushWord cur ++ [">>"] ++ tokenizeAux rest.tail .noQuote []
      else flushWord cur ++ [">"] ++ tokenizeAux rest .noQuote []
    else if c = '<' then flushWord cur ++ ["<"] ++ tokenizeAux rest .noQuote []
    else tokenizeAux rest .noQuote (cur ++ [c])
  | c :: rest, .inSingle, cur =>
    if c = '\'' then tokenizeAux rest .noQuote cur
    else tokenizeAux rest .inSingle (cur ++ [c])
  | c :: rest, .inDouble, cur =>
    if c = '"' then tokenizeAux rest .noQuote cur
    else tokenizeAux rest .inDouble (cur ++ [c])
termination_by l _ _ => l.length
decreasing_by all_goals (simp_all <;> omega)

/-- `tokenize(line string) -> []string` (spec §4.1). -/
def tokenize (s : String) : List String :=
  tokenizeAux s.toList .noQuote []

/-! ## Statement and pipe splitters

`Modelled from the spec:` `splitStatements` / `splitPipes` are missing
from the snapshot; this follows spec §4.2 steps 1–2 — a quote-tracking
scan splits on top-level `;` / `&&` (resp. `|`), recording for each split
point which operator was used; `&&` is only recognized as the combined
two-character operator and a lone `&` is not special; quote characters
are kept in the raw substrings (per `TestSplitStatements`); pieces are
whitespace-trimmed and empty pieces are dropped (so the empty line yields
zero statements, spec §4.2 step 4). -/

/-- Trim leading and trailing whitespace from a character list. -/
def trimChars (cs : List Char) : List Char :=
  ((cs.dropWhile isSpaceChar).reverse.dropWhile isSpaceChar).reverse

/-- Close the pending raw piece, pairing it with the operator that
followed it; empty (all-whitespace) pieces are dropped. -/
def closePiece (cur : List Char) (op : String) : List (String × String) :=
  let t := trimChars cur
  if t = [] then [] else [(String.mk t, op)]

def splitStatementsAux : List Char → QuoteState → List Char → List (String × String)
  | [], _, cur => closePiece cur ""
  | c :: rest, .noQuote, cur =>
    if c = ';' then closePiece cur ";" ++ splitStatementsAux rest .noQuote []
    else if c = '&' then
      if rest.head? = some '&' then
        closePiece cur "&&" ++ splitStatementsAux rest.tail .noQuote []
      else splitStatementsAux rest .noQuote (cur ++ [c])
    else if c = '\'' then splitStatementsAux rest .inSingle (cur ++ [c])
    else if c = '"' then splitStatementsAux rest .inDouble (cur ++ [c])
    else splitStatementsAux rest .noQuote (cur ++ [c])
  | c :: rest, .inSingle, cur =>
    if c = '\'' then splitStatementsAux rest .noQuote (cur ++ [c])
    else splitStatementsAux rest .inSingle (cur ++ [c])
  | c :: rest, .inDouble, cur =>
    if c = '"' then splitStatementsAux rest .noQuote (cur ++ [c])
    else splitStatementsAux rest .inDouble (cur ++ [c])
termination_by l _ _ => l.length
decreasing_by all_goals (simp_all <;> omega)

/-- Raw statement substrings paired with the operator following each. -/
def splitStatementsOps (s : String) : List (String × String) :=
  splitStatementsAux s.toList .noQuote []

/-- `splitStatements(line string) -> []string` as exercised by
`TestSplitStatements`: the raw statement substrings in order. -/
def splitStatements (s : String) : List String :=
  (splitStatementsOps s).map Prod.fst

def closePipePiece (cur : List Char) : List String :=
  let t := trimChars cur
  if t = [] then [] else [String.mk t]

def splitPipesAux : List Char → QuoteState → List Char → List String
  | [], _, cur => closePipePiece cur
  | c :: rest, .noQuote, cur =>
    if c = '|' then closePipePiece cur ++ splitPipesAux rest .noQuote []
    else if c = '\'' then splitPipesAux rest .inSingle (cur ++ [c])
    else if c = '"' then splitPipesAux rest .inDouble (cur ++ [c])
    else splitPipesAux rest .noQuote (cur ++ [c])
  | c :: rest, .inSingle, cur =>
    if c = '\'' then splitPipesAux rest .noQuote (cur ++ [c])
    else splitPipesAux rest .inSingle (cur ++ [c])
  | c :: rest, .inDouble, cur =>
    if c = '"' then splitPipesAux rest .noQuote (cur ++ [c])
    else splitPipesAux rest .inDouble (cur ++ [c])

/-- `splitPipes(stmt string) -> []string` (spec §4.2 step 2). -/
def splitPipes (s : String) : List String :=
  splitPipesAux s.toList .noQuote []

/-! ## Pipeline parser

`Modelled from the spec:` `parsePipeline` is missing from the snapshot;
this follows spec §4.2 step 3 — tokenize, then consume tokens left to
right: the first token is `Command`; subsequent tokens are either redirect
operators (consuming the *next* token as `Target`, attaching to
`Stdin`/`Stdout`) or plain arguments appended to `Args`. -/

def consumeTokens : List String → Pipeline → Pipeline
  | [], p => p
  | t :: rest, p =>
    if t = "<" then
      match rest with
      | tgt :: rest2 => consumeTokens rest2 { p with stdin := some ⟨"<", tgt⟩ }
      | [] => p
    else if t = ">" then
      match rest with
      | tgt :: rest2 => consumeTokens rest2 { p with stdout := some ⟨">", tgt⟩ }
      | [] => p
    else if t = ">>" then
      match rest with
      | tgt :: rest2 => consumeTokens rest2 { p with stdout := some ⟨">>", tgt⟩ }
      | [] => p
    else
      consumeTokens rest { p with args := p.args ++ [t] }

/-- `parsePipeline(stmt string) -> *Pipeline` (spec §4.2 step 3). -/
def parsePipeline (s : String) : Pipeline :=
  match tokenize s with
  | [] => { command := "", args := [] }
  | c :: rest => consumeTokens rest { command := c, args := [] }

/-- `parseCommand(line string) -> Command` (spec §4.2): split statements,
split each into pipelines, parse each pipeline. -/
def parseCommand (line : String) : Command :=
  { raw := line
    statements := (splitStatementsOps line).map fun pc =>
      { pipelines := (splitPipes pc.1).map parsePipeline
        operator := pc.2 } }

/-! ## Statement interpreter

Embeds `(sh *Shell) process(line string) (int, bool)` of
`src/native/shell/shell.go` (lines 116–149).  The script-execution
collaborator `sh.exec` is external (spec §6), so `process` is
parameterized by a function `execFn` giving, per invocation, the
`goja.Value` that `exec` returns; the `val.Export()` type switch at
lines 136–141 is mirrored by `ExecValue`.  Besides the Go return pair
`(exitCode, continueShell)` the embedding records ghost observations:
the pipelines visited in order, the exec calls made in order, and the
strings logged by `log.Println(val.String())`. -/

/-- The shapes `val.Export()` can take at `shell.go:136-141`: an `int64`
exit code, or anything else (logged via `val.String()`). -/
inductive ExecValue
  | intVal (v : Int)
  | other (s : String)
deriving DecidableEq, Repr

/-- `cmd += ".js"` unless it already ends in `.js`
(`strings.HasSuffix`, `shell.go:130-133`). -/
def suffixJs (cmd : String) : String :=
  if ".js".data.isSuffixOf cmd.data then cmd else cmd ++ ".js"

/-- Outcome of running the pipelines of one statement (or the statements
of one command): `halt = some (code, cont)` when `process` returned from
inside the loop, `none` when the loop fell through. -/
structure RunOut where
  halt : Option (Int × Bool)
  visited : List Pipeline
  calls : List (String × List String)
  logs : List String
deriving DecidableEq, Repr

/-- The inner `for _, pipe := range stmt.Pipelines` loop of
`shell.go:125-146`. -/
def runPipelines (execFn : String → List String → ExecValue)
    (stopOnError : Bool) : List Pipeline → RunOut
  | [] => ⟨none, [], [], []⟩
  | p :: rest =>
    if p.command = "exit" ∨ p.command = "quit" then
      ⟨some (0, false), [p], [], []⟩
    else
      let cmd := suffixJs p.command
      let (exitCode, logs) : Int × List String :=
        match execFn cmd p.args with
        | .intVal v => (v, [])
        | .other s => (-1, [s])
      if exitCode ≠ 0 ∧ stopOnError then
        ⟨some (exitCode, true), [p], [(cmd, p.args)], logs⟩
      else
        let out := runPipelines execFn stopOnError rest
        ⟨out.halt, p :: out.visited, (cmd, p.args) :: out.calls, logs ++ out.logs⟩

/-- The outer `for _, stmt := range cmd.Statements` loop of
`shell.go:120-147`, including `stopOnError := (stmt.Operator == "&&")`. -/
def runStatements (execFn : String → List String → ExecValue) :
    List Statement → RunOut
  | [] => ⟨none, [], [], []⟩
  | st :: rest =>
    let out := runPipelines execFn (st.operator = "&&") st.pipelines
    match out.halt with
    | some r => ⟨some r, out.visited, out.calls, out.logs⟩
    | none =>
      let out2 := runStatements execFn rest
      ⟨out2.halt, out.visited ++ out2.visited, out.calls ++ out2.calls,
        out.logs ++ out2.logs⟩

/-- Final result of `process`: the Go pair plus the ghost observations. -/
structure ProcOut where
  exitCode : Int
  continueShell : Bool
  visited : List Pipeline
  calls : List (String × List String)
  logs : List String
deriving DecidableEq, Repr

/-- `process(line)` (`shell.go:116-149`): parse, run the statements, and
return `(0, true)` when no pipeline requested an early return. -/
def process (execFn : String → List String → ExecValue) (line : String) :
    ProcOut :=
  let out := runStatements execFn (parseCommand line).statements
  match out.halt with
  | some (code, cont) => ⟨code, cont, out.visited, out.calls, out.logs⟩
  | none => ⟨0, true, out.visited, out.calls, out.logs⟩

/-! ## Job controller (`exec0`, `src/engine_unix.go:16-83`)

The OS interaction is embedded as explicit state: the controlling
terminal is `some fg` (a tty whose foreground process group is `fg`) or
`none` (not a tty — the `TIOCSPGRP` ioctl fails), and the three signal
dispositions are `default` or `ignored`.  The environment input
`LaunchEnv` fixes the OS responses: whether `ex.Start()` errors, the
child's pid, and what `ex.Wait()` returns.  The `TIOCSPGRP` ioctl on a
valid tty sets its foreground group and succeeds; on an invalid fd it
fails and leaves the terminal unchanged — so the two ioctls at
`engine_unix.go:50-57` and `72-81`, issued on the same `ttyFd`, succeed
or fail together, matching the code's degraded-but-non-fatal handling. -/

inductive SigDisp
  | dfl
  | ignored
deriving DecidableEq, Repr

/-- OS-level state visible to `exec0`: the controlling terminal and the
shell's process group and three job-control signal dispositions. -/
structure OSState where
  tty : Option Int
  shellPgid : Int
  sigTTOU : SigDisp
  sigTTIN : SigDisp
  sigTSTP : SigDisp
deriving DecidableEq, Repr

/-- `ex.Wait()` outcomes (`engine_unix.go:61-69`): nil error, an
`*exec.ExitError` carrying the child's exit code, or another error. -/
inductive WaitOutcome
  | success
  | exitError (code : Int)
  | failure (msg : String)
deriving DecidableEq, Repr

/-- OS responses for one launch. -/
structure LaunchEnv where
  startErr : Option String
  childPid : Int
  waitOutcome : WaitOutcome
deriving DecidableEq, Repr

/-- The `goja.Value` results `exec0` can produce: an exit code via
`jr.vm.ToValue`, or `jr.vm.NewGoError(err)`. -/
inductive JSValue
  | intVal (n : Int)
  | goError (msg : String)
deriving DecidableEq, Repr

/-- The `TIOCSPGRP` ioctl: on a tty, set the foreground group and
succeed; on a non-tty fd, fail leaving it unchanged. -/
def tcsetpgrp (tty : Option Int) (pg : Int) : Option Int × Bool :=
  match tty with
  | some _ => (some pg, true)
  | none => (none, false)

/-- `signal.Ignore(SIGTTOU/SIGTTIN/SIGTSTP)` (`engine_unix.go:34-36`). -/
def ignoreJobSignals (st : OSState) : OSState :=
  { st with sigTTOU := .ignored, sigTTIN := .ignored, sigTSTP := .ignored }

/-- The deferred `signal.Reset` of the three signals
(`engine_unix.go:37-41`), run on every return path. -/
def resetJobSignals (st : OSState) : OSState :=
  { st with sigTTOU := .dfl, sigTTIN := .dfl, sigTSTP := .dfl }

/-- What one `exec0` launch returns and leaves behind: the result value,
the final OS state, the messages printed, the foreground-group ids
requested by `TIOCSPGRP` in order, and ghost flags for whether the child
started and whether the handoff ioctl succeeded. -/
structure LaunchOut where
  result : JSValue
  os : OSState
  printed : List String
  fgRequests : List Int
  started : Bool
  granted : Bool
deriving DecidableEq, Repr

/-- `(jr *JSRuntime) exec0(ex *exec.Cmd) goja.Value`
(`engine_unix.go:16-83`): record the shell's pgid, ignore the three
job-control signals (with a deferred reset), start the child; on start
error return the error at once; otherwise hand the terminal to the
child's group, wait, and unconditionally hand the terminal back to the
recorded shell group. -/
def exec0 (env : LaunchEnv) (st : OSState) : LaunchOut :=
  let shellPgid := st.shellPgid
  let st1 := ignoreJobSignals st
  match env.startErr with
  | some e =>
    { result := .goError e, os := resetJobSignals st1, printed := [],
      fgRequests := [], started := false, granted := false }
  | none =>
    let childPgid := env.childPid
    let (tty2, ok1) := tcsetpgrp st1.tty childPgid
    let printed1 := if ok1 then [] else ["failed to set foreground"]
    let result : JSValue :=
      match env.waitOutcome with
      | .success => .intVal 0
      | .exitError code => .intVal code
      | .failure msg => .goError msg
    let (tty3, ok2) := tcsetpgrp tty2 shellPgid
    let printed2 := if ok2 then [""] else ["failed to restore foreground"]
    { result := result,
      os := resetJobSignals { st1 with tty := tty3 },
      printed := printed1 ++ printed2,
      fgRequests := [childPgid, shellPgid],
      started := true, granted := ok1 }

/-! ## Character classes and fixtures used by the theorems -/

/-- Characters with no special meaning to the tokenizer: not a quote,
not whitespace, not a redirection operator character. -/
def wordChar (c : Char) : Bool :=
  !(c = '\'') && !(c = '"') && !isSpaceChar c && !(c = '>') && !(c = '<')

/-- Characters with no special meaning to the statement splitter. -/
def stmtPlainChar (c : Char) : Bool :=
  !(c = ';') && !(c = '&') && !(c = '\'') && !(c = '"')

/-- Characters with no special meaning to the pipe splitter. -/
def pipePlainChar (c : Char) : Bool :=
  !(c = '|') && !(c = '\'') && !(c = '"')

/-- Characters plain for the tokenizer and both splitters at once. -/
def bareChar (c : Char) : Bool :=
  wordChar c && stmtPlainChar c && pipePlainChar c

/-- A "simple command" string: non-empty, already trimmed, and free of
quoting and of the statement/pipe operators (it may contain spaces,
arguments and redirections). -/
def SimpleCmd (s : String) : Prop :=
  s ≠ "" ∧ s.data.all (fun c => stmtPlainChar c && pipePlainChar c) = true ∧
    trimChars s.data = s.data

instance (s : String) : Decidable (SimpleCmd s) := by
  unfold SimpleCmd
  infer_instance

/-- The built-in shell-termination verbs of `process` (`shell.go:127`). -/
def isExitQuit (p : Pipeline) : Prop :=
  p.command = "exit" ∨ p.command = "quit"

instance (p : Pipeline) : Decidable (isExitQuit p) := by
  unfold isExitQuit
  infer_instance

/-- A script-execution collaborator whose scripts all succeed. -/
def execAllOk : String → List String → ExecValue := fun _ _ => .intVal 0

/-- A collaborator whose scripts all fail with exit code 1. -/
def execAllFail : String → List String → ExecValue := fun _ _ => .intVal 1

/-- A collaborator whose values never export as `int64`. -/
def execAllErr : String → List String → ExecValue :=
  fun _ _ => .other "TypeError: not a function"

/-- A launch whose child starts, is granted the terminal, and exits
abnormally with code 3. -/
def envRun : LaunchEnv := ⟨none, 777, .exitError 3⟩

/-- A launch whose child fails to start. -/
def envStartFail : LaunchEnv := ⟨some "fork/exec ls.js: permission denied", 777, .success⟩

/-- A shell on a valid controlling terminal, default signal dispositions. -/
def st0 : OSState := ⟨some 100, 42, .dfl, .dfl, .dfl⟩

end Jsh

namespace Jsh

/-! ## Helper lemmas -/

lemma stringMk_data (s : String) : String.mk s.data = s := by
  cases s
  rfl

lemma trimChars_cons_space (l : List Char) : trimChars (' ' :: l) = trimChars l := by
  simp [trimChars, List.dropWhile_cons, isSpaceChar]

lemma trimChars_append_space (l : List Char) :
    trimChars (l ++ [' ']) = trimChars l := by
  unfold trimChars
  rw [List.dropWhile_append]
  by_cases h : (l.dropWhile isSpaceChar).isEmpty = true
  · rw [if_pos h]
    rw [List.isEmpty_iff] at h
    rw [h]
    simp [List.dropWhile_cons, isSpaceChar]
  · rw [if_neg h]
    simp [List.dropWhile_cons, isSpaceChar]

lemma trimChars_eq_self {l : List Char}
    (h1 : ∀ c, l.head? = some c → isSpaceChar c = false)
    (h2 : ∀ c, l.getLast? = some c → isSpaceChar c = false) :
    trimChars l = l := by
  unfold trimChars
  have hd : l.dropWhile isSpaceChar = l := by
    cases l with
    | nil => simp
    | cons a as => simp [List.dropWhile_cons, h1 a rfl]
  rw [hd]
  have hr : l.reverse.dropWhile isSpaceChar = l.reverse := by
    cases hrev : l.reverse with
    | nil => simp
    | cons a as =>
      have ha : l.getLast? = some a := by
        rw [← List.head?_reverse, hrev]
        rfl
      simp [List.dropWhile_cons, h2 a ha]
  rw [hr, List.reverse_reverse]

/-- Scanning a run of plain word characters just accumulates them. -/
lemma tokenizeAux_word (w : List Char) (rest cur : List Char)
    (hw : ∀ c ∈ w, wordChar c = true) :
    tokenizeAux (w ++ rest) .noQuote cur = tokenizeAux rest .noQuote (cur ++ w) := by
  induction w generalizing cur with
  | nil => simp
  | cons c w ih =>
    have hc := hw c (by simp)
    simp only [wordChar, Bool.and_eq_true, Bool.not_eq_true',
      decide_eq_false_iff_not] at hc
    obtain ⟨⟨⟨⟨h1, h2⟩, h3⟩, h4⟩, h5⟩ := hc
    rw [List.cons_append]
    simp only [tokenizeAux, h1, h2, h3, h4, h5, if_false, ite_false,
      Bool.false_eq_true]
    rw [ih (cur ++ [c]) fun c hc => hw c (by simp [hc])]
    simp

/-- Inside single quotes every character other than `'` is literal. -/
lemma tokenizeAux_inSingle (w : List Char) (rest cur : List Char)
    (hw : ∀ c ∈ w, c ≠ '\'') :
    tokenizeAux (w ++ rest) .inSingle cur = tokenizeAux rest .inSingle (cur ++ w) := by
  induction w generalizing cur with
  | nil => simp
  | cons c w ih =>
    have hc := hw c (by simp)
    rw [List.cons_append]
    simp only [tokenizeAux, hc, if_false, ite_false]
    rw [ih (cur ++ [c]) fun c hc => hw c (by simp [hc])]
    simp

/-- Inside double quotes every character other than `"` is literal. -/
lemma tokenizeAux_inDouble (w : List Char) (rest cur : List Char)
    (hw : ∀ c ∈ w, c ≠ '"') :
    tokenizeAux (w ++ rest) .inDouble cur = tokenizeAux rest .inDouble (cur ++ w) := by
  induction w generalizing cur with
  | nil => simp
  | cons c w ih =>
    have hc := hw c (by simp)
    rw [List.cons_append]
    simp only [tokenizeAux, hc, if_false, ite_false]
    rw [ih (cur ++ [c]) fun c hc => hw c (by simp [hc])]
    simp

/-- The statement splitter accumulates plain characters. -/
lemma splitStatementsAux_plain (w : List Char) (rest cur : List Char)
    (hw : ∀ c ∈ w, stmtPlainChar c = true) :
    splitStatementsAux (w ++ rest) .noQuote cur
      = splitStatementsAux rest .noQuote (cur ++ w) := by
  induction w generalizing cur with
  | nil => simp
  | cons c w ih =>
    have hc := hw c (by simp)
    simp only [stmtPlainChar, Bool.and_eq_true, Bool.not_eq_true',
      decide_eq_false_iff_not] at hc
    obtain ⟨⟨⟨h1, h2⟩, h3⟩, h4⟩ := hc
    rw [List.cons_append]
    simp only [splitStatementsAux, h1, h2, h3, h4, if_false, ite_false]
    rw [ih (cur ++ [c]) fun c hc => hw c (by simp [hc])]
    simp

/-- The statement splitter keeps all non-`'` characters inside single quotes. -/
lemma splitStatementsAux_inSingle (w : List Char) (rest cur : List Char)
    (hw : ∀ c ∈ w, c ≠ '\'') :
    splitStatementsAux (w ++ rest) .inSingle cur
      = splitStatementsAux rest .inSingle (cur ++ w) := by
  induction w generalizing cur with
  | nil => simp
  | cons c w ih =>
    have hc := hw c (by simp)
    rw [List.cons_append]
    simp only [splitStatementsAux, hc, if_false, ite_false]
    rw [ih (cur ++ [c]) fun c hc => hw c (by simp [hc])]
    simp

/-- The statement splitter keeps all non-`"` characters inside double quotes. -/
lemma splitStatementsAux_inDouble (w : List Char) (rest cur : List Char)
    (hw : ∀ c ∈ w, c ≠ '"') :
    splitStatementsAux (w ++ rest) .inDouble cur
      = splitStatementsAux rest .inDouble (cur ++ w) := by
  induction w generalizing cur with
  | nil => simp
  | cons c w ih =>
    have hc := hw c (by simp)
    rw [List.cons_append]
    simp only [splitStatementsAux, hc, if_false, ite_false]
    rw [ih (cur ++ [c]) fun c hc => hw c (by simp [hc])]
    simp

/-- The pipe splitter accumulates plain characters. -/
lemma splitPipesAux_plain (w : List Char) (rest cur : List Char)
    (hw : ∀ c ∈ w, pipePlainChar c = true) :
    splitPipesAux (w ++ rest) .noQuote cur = splitPipesAux rest .noQuote (cur ++ w) := by
  induction w generalizing cur with
  | nil => simp
  | cons c w ih =>
    have hc := hw c (by simp)
    simp only [pipePlainChar, Bool.and_eq_true, Bool.not_eq_true',
      decide_eq_false_iff_not] at hc
    obtain ⟨⟨h1, h2⟩, h3⟩ := hc
    rw [List.cons_append]
    simp only [splitPipesAux, h1, h2, h3, if_false, ite_false]
    rw [ih (cur ++ [c]) fun c hc => hw c (by simp [hc])]
    simp

/-- The pipe splitter keeps all non-`'` characters inside single quotes. -/
lemma splitPipesAux_inSingle (w : List Char) (rest cur : List Char)
    (hw : ∀ c ∈ w, c ≠ '\'') :
    splitPipesAux (w ++ rest) .inSingle cur = splitPipesAux rest .inSingle (cur ++ w) := by
  induction w generalizing cur with
  | nil => simp
  | cons c w ih =>
    have hc := hw c (by simp)
    rw [List.cons_append]
    simp only [splitPipesAux, hc, if_false, ite_false]
    rw [ih (cur ++ [c]) fun c hc => hw c (by simp [hc])]
    simp

/-- The pipe splitter keeps all non-`"` characters inside double quotes. -/
lemma splitPipesAux_inDouble (w : List Char) (rest cur : List Char)
    (hw : ∀ c ∈ w, c ≠ '"') :
    splitPipesAux (w ++ rest) .inDouble cur = splitPipesAux rest .inDouble (cur ++ w) := by
  induction w generalizing cur with
  | nil => simp
  | cons c w ih =>
    have hc := hw c (by simp)
    rw [List.cons_append]
    simp only [splitPipesAux, hc, if_false, ite_false]
    rw [ih (cur ++ [c]) fun c hc => hw c (by simp [hc])]
    simp

/-- The pipeline loop returns `continueShell = false` exactly when it
reaches an `exit`/`quit` pipeline, and then with exit code 0. -/
lemma runPipelines_exit (e : String → List String → ExecValue) (so : Bool)
    (ps : List Pipeline) :
    (∀ c, (runPipelines e so ps).halt = some (c, false) → c = 0) ∧
    ((∃ c, (runPipelines e so ps).halt = some (c, false)) ↔
      ∃ p ∈ (runPipelines e so ps).visited, isExitQuit p) := by
  induction ps with
  | nil => simp [runPipelines]
  | cons p ps ih =>
    by_cases hpq : p.command = "exit" ∨ p.command = "quit"
    · constructor
      · intro c hc
        simp [runPipelines, hpq] at hc
        exact hc.symm
      · simp [runPipelines, hpq, isExitQuit]
    · cases hv : e (suffixJs p.command) p.args with
      | intVal v =>
        by_cases hss : v ≠ 0 ∧ so = true
        · constructor
          · intro c hc
            simp [runPipelines, hpq, hv, hss] at hc
          · simp [runPipelines, hpq, hv, hss, isExitQuit]
        · constructor
          · intro c hc
            refine ih.1 c ?_
            simpa [runPipelines, hpq, hv, hss] using hc
          · rw [show (∃ c, (runPipelines e so (p :: ps)).halt = some (c, false)) ↔
                  ∃ c, (runPipelines e so ps).halt = some (c, false) by
                simp [runPipelines, hpq, hv, hss]]
            rw [ih.2]
            simp [runPipelines, hpq, hv, hss, isExitQuit]
      | other s =>
        by_cases hso : so = true
        · constructor
          · intro c hc
            simp [runPipelines, hpq, hv, hso] at hc
          · simp [runPipelines, hpq, hv, hso, isExitQuit]
        · constructor
          · intro c hc
            refine ih.1 c ?_
            simpa [runPipelines, hpq, hv, hso] using hc
          · rw [show (∃ c, (runPipelines e so (p :: ps)).halt = some (c, false)) ↔
                  ∃ c, (runPipelines e so ps).halt = some (c, false) by
                simp [runPipelines, hpq, hv, hso]]
            rw [ih.2]
            simp [runPipelines, hpq, hv, hso, isExitQuit]

/-- The statement loop returns `continueShell = false` exactly when some
reached pipeline is `exit`/`quit`, and then with exit code 0. -/
lemma runStatements_exit (e : String → List String → ExecValue)
    (sts : List Statement) :
    (∀ c, (runStatements e sts).halt = some (c, false) → c = 0) ∧
    ((∃ c, (runStatements e sts).halt = some (c, false)) ↔
      ∃ p ∈ (runStatements e sts).visited, isExitQuit p) := by
  induction sts with
  | nil => simp [runStatements]
  | cons st sts ih =>
    have hp := runPipelines_exit e (st.operator = "&&") st.pipelines
    cases hh : (runPipelines e (st.operator = "&&") st.pipelines).halt with
    | some r =>
      constructor
      · intro c hc
        simp [runStatements, hh] at hc
        exact hp.1 c (by rw [hh, hc])
      · rw [show (∃ c, (runStatements e (st :: sts)).halt = some (c, false)) ↔
              ∃ c, (runPipelines e (st.operator = "&&") st.pipelines).halt
                = some (c, false) by simp [runStatements, hh]]
        rw [hp.2]
        simp [runStatements, hh]
    | none =>
      constructor
      · intro c hc
        refine ih.1 c ?_
        simpa [runStatements, hh] using hc
      · rw [show (∃ c, (runStatements e (st :: sts)).halt = some (c, false)) ↔
              ∃ c, (runStatements e sts).halt = some (c, false) by
            simp [runStatements, hh]]
        rw [ih.2]
        have hnone : ¬∃ p ∈ (runPipelines e (st.operator = "&&")
            st.pipelines).visited, isExitQuit p := by
          rw [← hp.2, hh]
          simp
        constructor
        · intro ⟨p, hmem, hex⟩
          refine ⟨p, ?_, hex⟩
          simp [runStatements, hh, hmem]
        · intro ⟨p, hmem, hex⟩
          simp [runStatements, hh] at hmem
          rcases hmem with hmem | hmem
          · exact absurd ⟨p, hmem, hex⟩ hnone
          · exact ⟨p, hmem, hex⟩

lemma string_data_ne_nil {s : String} (h : s ≠ "") : s.data ≠ [] := by
  intro hd
  apply h
  cases s with
  | mk l =>
    simp only at hd
    rw [hd]

/-- `consumeTokens` never changes the pipeline's command: the first
token of `parsePipeline` is final. -/
lemma consumeTokens_command : ∀ (toks : List String) (p : Pipeline),
    (consumeTokens toks p).command = p.command
  | [], _ => rfl
  | t :: rest, p => by
    cases rest with
    | nil =>
      by_cases ht1 : t = "<" <;> by_cases ht2 : t = ">" <;> by_cases ht3 : t = ">>" <;>
        simp [consumeTokens, ht1, ht2, ht3]
    | cons tgt rest2 =>
      have ih1 := consumeTokens_command rest2
      have ih2 := consumeTokens_command (tgt :: rest2)
      by_cases ht1 : t = "<" <;> by_cases ht2 : t = ">" <;> by_cases ht3 : t = ">>" <;>
        simp [consumeTokens, ht1, ht2, ht3, ih1, ih2]

/-- One tokenizer step at a `>` not followed by another `>`. -/
lemma tokenizeAux_gt_step (rest cur : List Char) (hne : ¬rest.head? = some '>') :
    tokenizeAux ('>' :: rest) .noQuote cur
      = flushWord cur ++ [">"] ++ tokenizeAux rest .noQuote [] := by
  simp [tokenizeAux, isSpaceChar, hne]

/-- One tokenizer step at `>>`: recognized greedily as one token. -/
lemma tokenizeAux_gtgt_step (rest cur : List Char) :
    tokenizeAux ('>' :: '>' :: rest) .noQuote cur
      = flushWord cur ++ [">>"] ++ tokenizeAux rest .noQuote [] := by
  simp [tokenizeAux, isSpaceChar]

/-- One tokenizer step at `<`. -/
lemma tokenizeAux_lt_step (rest cur : List Char) :
    tokenizeAux ('<' :: rest) .noQuote cur
      = flushWord cur ++ ["<"] ++ tokenizeAux rest .noQuote [] := by
  simp [tokenizeAux, isSpaceChar]

/-- One statement-splitter step at `&&`. -/
lemma splitStatementsAux_andand_step (rest cur : List Char) :
    splitStatementsAux ('&' :: '&' :: rest) .noQuote cur
      = closePiece cur "&&" ++ splitStatementsAux rest .noQuote [] := by
  simp [splitStatementsAux]

/-- A run of plain characters up to end of input closes the last piece. -/
lemma splitStatementsAux_plain_only (w : List Char)
    (hw : ∀ c ∈ w, stmtPlainChar c = true) :
    splitStatementsAux w .noQuote [] = closePiece w "" := by
  have hscan := splitStatementsAux_plain w [] [] hw
  rw [List.append_nil, List.nil_append] at hscan
  rw [hscan]
  simp [splitStatementsAux]

/-- A run of pipe-plain characters up to end of input closes the last piece. -/
lemma splitPipesAux_plain_only (w : List Char)
    (hw : ∀ c ∈ w, pipePlainChar c = true) :
    splitPipesAux w .noQuote [] = closePipePiece w := by
  have hscan := splitPipesAux_plain w [] [] hw
  rw [List.append_nil, List.nil_append] at hscan
  rw [hscan]
  simp [splitPipesAux]

/-- A trimmed piece starting and ending with non-space stays intact. -/
lemma trimChars_quoted {c0 q : Char} {l : List Char}
    (h1 : isSpaceChar c0 = false) (h2 : isSpaceChar q = false) :
    trimChars (c0 :: (l ++ [q])) = c0 :: (l ++ [q]) := by
  apply trimChars_eq_self
  · intro c hc
    simp only [List.head?_cons, Option.some.injEq] at hc
    rw [← hc]
    exact h1
  · intro c hc
    rw [List.getLast?_cons, List.getLast?_concat] at hc
    simp only [Option.getD_some, Option.some.injEq] at hc
    rw [← hc]
    exact h2

/-- One tokenizer step at a space. -/
lemma tokenizeAux_space_step (rest cur : List Char) :
    tokenizeAux (' ' :: rest) .noQuote cur
      = flushWord cur ++ tokenizeAux rest .noQuote [] := by
  simp [tokenizeAux, isSpaceChar]

lemma tokenizeAux_squote_open (rest cur : List Char) :
    tokenizeAux ('\'' :: rest) .noQuote cur = tokenizeAux rest .inSingle cur := by
  simp [tokenizeAux]

lemma tokenizeAux_squote_close (rest cur : List Char) :
    tokenizeAux ('\'' :: rest) .inSingle cur = tokenizeAux rest .noQuote cur := by
  simp [tokenizeAux]

lemma tokenizeAux_dquote_open (rest cur : List Char) :
    tokenizeAux ('"' :: rest) .noQuote cur = tokenizeAux rest .inDouble cur := by
  simp [tokenizeAux]

lemma tokenizeAux_dquote_close (rest cur : List Char) :
    tokenizeAux ('"' :: rest) .inDouble cur = tokenizeAux rest .noQuote cur := by
  simp [tokenizeAux]

lemma splitStatementsAux_nil (cur : List Char) :
    splitStatementsAux [] .noQuote cur = closePiece cur "" := by
  simp [splitStatementsAux]

lemma splitStatementsAux_squote_open (rest cur : List Char) :
    splitStatementsAux ('\'' :: rest) .noQuote cur
      = splitStatementsAux rest .inSingle (cur ++ ['\'']) := by
  simp [splitStatementsAux]

lemma splitStatementsAux_squote_close (rest cur : List Char) :
    splitStatementsAux ('\'' :: rest) .inSingle cur
      = splitStatementsAux rest .noQuote (cur ++ ['\'']) := by
  simp [splitStatementsAux]

lemma splitStatementsAux_dquote_open (rest cur : List Char) :
    splitStatementsAux ('"' :: rest) .noQuote cur
      = splitStatementsAux rest .inDouble (cur ++ ['"']) := by
  simp [splitStatementsAux]

lemma splitStatementsAux_dquote_close (rest cur : List Char) :
    splitStatementsAux ('"' :: rest) .inDouble cur
      = splitStatementsAux rest .noQuote (cur ++ ['"']) := by
  simp [splitStatementsAux]

lemma splitPipesAux_nil (cur : List Char) :
    splitPipesAux [] .noQuote cur = closePipePiece cur := by
  simp [splitPipesAux]

lemma splitPipesAux_squote_open (rest cur : List Char) :
    splitPipesAux ('\'' :: rest) .noQuote cur
      = splitPipesAux rest .inSingle (cur ++ ['\'']) := by
  simp [splitPipesAux]

lemma splitPipesAux_squote_close (rest cur : List Char) :
    splitPipesAux ('\'' :: rest) .inSingle cur
      = splitPipesAux rest .noQuote (cur ++ ['\'']) := by
  simp [splitPipesAux]

lemma splitPipesAux_dquote_open (rest cur : List Char) :
    splitPipesAux ('"' :: rest) .noQuote cur
      = splitPipesAux rest .inDouble (cur ++ ['"']) := by
  simp [splitPipesAux]

lemma splitPipesAux_dquote_close (rest cur : List Char) :
    splitPipesAux ('"' :: rest) .inDouble cur
      = splitPipesAux rest .noQuote (cur ++ ['"']) := by
  simp [splitPipesAux]

/-- A non-empty all-plain word tokenizes to itself alone. -/
lemma tokenizeAux_word_only (s : String) (h : s ≠ "")
    (hw : ∀ c ∈ s.data, wordChar c = true) :
    tokenizeAux s.data .noQuote [] = [s] := by
  have hscan := tokenizeAux_word s.data [] [] hw
  rw [List.append_nil, List.nil_append] at hscan
  rw [hscan]
  simp [tokenizeAux, flushWord, string_data_ne_nil h, stringMk_data]

/-! ## Claim theorems -/

/-- C8: `parseCommand` applied to the empty string returns a `Command`
with `Raw = ""` and an empty `Statements` list — not a list holding one
empty statement — as an ordinary result. -/
theorem parseCommand_empty_yields_no_statements :
    parseCommand "" = { raw := "", statements := [] } := by
  simp [parseCommand, splitStatementsOps, splitStatementsAux, closePiece, trimChars]

/-- C1: whenever the child started and the foreground handoff (the
`TIOCSPGRP` ioctl naming the child's group) succeeded, `exec0` leaves
the terminal's foreground process group equal to the shell's own group
id recorded before the launch — for every wait outcome (normal exit,
non-zero exit, or wait error) — and the restore request names exactly
the recorded parent group. -/
theorem exec0_restores_shell_foreground (env : LaunchEnv) (st : OSState)
    (hs : (exec0 env st).started = true) (hg : (exec0 env st).granted = true) :
    (exec0 env st).os.tty = some st.shellPgid ∧
    (exec0 env st).fgRequests = [env.childPid, st.shellPgid] := by
  cases henv : env.startErr with
  | some e => simp [exec0, henv] at hs
  | none =>
    cases htty : st.tty with
    | none => simp [exec0, henv, htty, tcsetpgrp, ignoreJobSignals] at hg
    | some fg =>
      simp [exec0, henv, htty, tcsetpgrp, ignoreJobSignals, resetJobSignals]

/-- Witness for C1: a tty at group 100, shell group 42, child 777 whose
wait yields an abnormal exit code 3: foreground is restored to 42. -/
theorem exec0_restores_shell_foreground_witness :
    (exec0 envRun st0).os.tty = some 42 ∧
    (exec0 envRun st0).fgRequests = [777, 42] :=
  exec0_restores_shell_foreground envRun st0 (by decide) (by decide)

/-- C4 counterexample: when the child fails to start, `exec0` returns
the error without issuing any `TIOCSPGRP` request, but the deferred
signal reset still runs: the three dispositions end up reset (default),
not left as set in step 3 — so "step 8 is skipped" is false. -/
theorem exec0_start_error_cex :
    (exec0 envStartFail st0).result = .goError "fork/exec ls.js: permission denied" ∧
    (exec0 envStartFail st0).fgRequests = [] ∧
    (exec0 envStartFail st0).os.sigTTOU = .dfl ∧
    (exec0 envStartFail st0).os.sigTTIN = .dfl ∧
    (exec0 envStartFail st0).os.sigTSTP = .dfl := by
  decide

/-- C4 as amended: on a start error `exec0` returns the error
immediately, never issues a terminal-control-transfer request and skips
the terminal-foreground restoration (the terminal is untouched), but the
deferred reset of the three job-control signals still runs. -/
theorem exec0_start_error_skips_ioctls (env : LaunchEnv) (st : OSState)
    (e : String) (h : env.startErr = some e) :
    (exec0 env st).result = .goError e ∧
    (exec0 env st).fgRequests = [] ∧
    (exec0 env st).printed = [] ∧
    (exec0 env st).os.tty = st.tty ∧
    (exec0 env st).os.sigTTOU = .dfl ∧
    (exec0 env st).os.sigTTIN = .dfl ∧
    (exec0 env st).os.sigTSTP = .dfl := by
  simp [exec0, h, resetJobSignals, ignoreJobSignals]

/-- Witness for the amended C4 at the concrete failing launch. -/
theorem exec0_start_error_skips_ioctls_witness :
    (exec0 envStartFail st0).result = .goError "fork/exec ls.js: permission denied" ∧
    (exec0 envStartFail st0).fgRequests = [] ∧
    (exec0 envStartFail st0).printed = [] ∧
    (exec0 envStartFail st0).os.tty = some 100 ∧
    (exec0 envStartFail st0).os.sigTTOU = .dfl ∧
    (exec0 envStartFail st0).os.sigTTIN = .dfl ∧
    (exec0 envStartFail st0).os.sigTSTP = .dfl :=
  exec0_start_error_skips_ioctls envStartFail st0
    "fork/exec ls.js: permission denied" rfl

/-- C9 counterexample: `process` does not treat `pwd` as a built-in —
on input `"pwd"` it dispatches `pwd.js` to the script-execution
collaborator (the dispatch trace is non-empty), writing nothing itself. -/
theorem process_pwd_dispatch_cex :
    (process execAllOk "pwd").calls = [("pwd.js", [])] ∧
    (process execAllOk "pwd").logs = [] ∧
    (process execAllOk "pwd").exitCode = 0 ∧
    (process execAllOk "pwd").continueShell = true := by
  have hsfx : suffixJs "pwd" = "pwd.js" := by decide
  simp [process, runStatements, runPipelines, execAllOk, hsfx, parseCommand,
    splitStatementsOps, splitStatementsAux, closePiece, trimChars, splitPipes,
    splitPipesAux, closePipePiece, parsePipeline, tokenize, tokenizeAux,
    flushWord, isSpaceChar, consumeTokens, List.dropWhile]

/-- C9 as amended: a pipeline whose command is `pwd` is not
special-cased by `process`; for every collaborator behavior the verb
gets the `.js` suffix and is handed to the collaborator like any other
command. -/
theorem process_pwd_dispatches_externally (e : String → List String → ExecValue) :
    (process e "pwd").calls = [("pwd.js", [])] ∧
    (process e "pwd").visited = [{ command := "pwd", args := [] }] := by
  have hparse : (parseCommand "pwd").statements
      = [{ pipelines := [{ command := "pwd", args := [] }], operator := "" }] := by
    simp [parseCommand, splitStatementsOps, splitStatementsAux, closePiece,
      trimChars, splitPipes, splitPipesAux, closePipePiece, parsePipeline,
      tokenize, tokenizeAux, flushWord, isSpaceChar, consumeTokens, List.dropWhile]
  have hsfx : suffixJs "pwd" = "pwd.js" := by decide
  simp only [process, hparse, runStatements, runPipelines, hsfx]
  cases e "pwd.js" [] <;> simp

/-- C10: when the collaborator's value does not export as an integer
exit code, the stage's exit code is `-1`, the value's string is logged,
and under a `&&` statement `process` stops at that stage and returns
`(-1, true)` without executing anything further. -/
theorem process_nonint_export_short_circuits
    (e : String → List String → ExecValue) (line : String)
    (st : Statement) (rest : List Statement) (p : Pipeline)
    (ps : List Pipeline) (s : String)
    (hp : (parseCommand line).statements = st :: rest)
    (hop : st.operator = "&&") (hpipes : st.pipelines = p :: ps)
    (h1 : p.command ≠ "exit") (h2 : p.command ≠ "quit")
    (hv : e (suffixJs p.command) p.args = ExecValue.other s) :
    process e line = ⟨-1, true, [p], [(suffixJs p.command, p.args)], [s]⟩ := by
  have hguard : ¬(p.command = "exit" ∨ p.command = "quit") := by tauto
  simp [process, hp, runStatements, hop, hpipes, runPipelines, hguard, hv]

/-- Witness for C10: `aaa && bbb` with a collaborator that returns a
non-integer value: `process` returns `(-1, true)`, logs the value, and
never reaches `bbb`. -/
theorem process_nonint_export_short_circuits_witness :
    process execAllErr "aaa && bbb" =
      ⟨-1, true, [{ command := "aaa", args := [] }], [("aaa.js", [])],
        ["TypeError: not a function"]⟩ := by
  refine process_nonint_export_short_circuits execAllErr "aaa && bbb"
    { pipelines := [{ command := "aaa", args := [] }], operator := "&&" }
    [{ pipelines := [{ command := "bbb", args := [] }], operator := "" }]
    { command := "aaa", args := [] } [] "TypeError: not a function"
    ?_ rfl rfl (by decide) (by decide) rfl
  simp [parseCommand, splitStatementsOps, splitStatementsAux, closePiece,
    trimChars, splitPipes, splitPipesAux, closePipePiece, parsePipeline,
    tokenize, tokenizeAux, flushWord, isSpaceChar, consumeTokens, List.dropWhile]

/-- C3: `process` returns `continueShell = false` exactly when an
`exit`/`quit` pipeline is reached during in-order execution, and then
with exit code 0; for every other input — failing commands included —
`continueShell = true`. -/
theorem process_continueShell_iff_exit (e : String → List String → ExecValue)
    (line : String) :
    ((process e line).continueShell = false ↔
      ∃ p ∈ (process e line).visited, isExitQuit p) ∧
    ((process e line).continueShell = false → (process e line).exitCode = 0) := by
  have h := runStatements_exit e (parseCommand line).statements
  cases hh : (runStatements e (parseCommand line).statements).halt with
  | none =>
    have hno : ¬∃ p ∈ (runStatements e (parseCommand line).statements).visited,
        isExitQuit p := by
      rw [← h.2, hh]
      simp
    constructor
    · constructor
      · intro hc
        simp [process, hh] at hc
      · intro hex
        exact absurd (by simpa [process, hh] using hex) hno
    · intro hc
      simp [process, hh] at hc
  | some r =>
    obtain ⟨c, b⟩ := r
    cases b with
    | true =>
      have hno : ¬∃ p ∈ (runStatements e (parseCommand line).statements).visited,
          isExitQuit p := by
        rw [← h.2, hh]
        simp
      constructor
      · constructor
        · intro hc
          simp [process, hh] at hc
        · intro hex
          exact absurd (by simpa [process, hh] using hex) hno
      · intro hc
        simp [process, hh] at hc
    | false =>
      have hex := h.2.mp ⟨c, hh⟩
      have hc0 : c = 0 := h.1 c hh
      constructor
      · constructor
        · intro _
          simpa [process, hh] using hex
        · intro _
          simp [process, hh]
      · intro _
        simp [process, hh, hc0]

/-- Witness for C3: on input `exit`, the shell loop is told to stop and
the returned exit code is 0. -/
theorem process_continueShell_iff_exit_witness :
    (process execAllOk "exit").continueShell = false ∧
    (process execAllOk "exit").exitCode = 0 := by
  have hcf : (process execAllOk "exit").continueShell = false := by
    simp [process, runStatements, runPipelines, execAllOk, parseCommand,
      splitStatementsOps, splitStatementsAux, closePiece, trimChars, splitPipes,
      splitPipesAux, closePipePiece, parsePipeline, tokenize, tokenizeAux,
      flushWord, isSpaceChar, consumeTokens, List.dropWhile]
  exact ⟨hcf, (process_continueShell_iff_exit execAllOk "exit").2 hcf⟩

/-- C6: `parsePipeline` consumes tokens left to right — the first token
always becomes `Command` — and each redirect operator consumes the
following token as its `Target`; in particular
`parsePipeline "sort < input.txt > output.txt"` yields command `sort`,
no args, stdin `<input.txt` and stdout `>output.txt`. -/
theorem parsePipeline_first_token_and_redirects :
    (∀ (s : String) (c : String) (rest : List String),
      tokenize s = c :: rest → (parsePipeline s).command = c) ∧
    parsePipeline "sort < input.txt > output.txt" =
      { command := "sort", args := [],
        stdin := some ⟨"<", "input.txt"⟩, stdout := some ⟨">", "output.txt"⟩ } := by
  constructor
  · intro s c rest h
    simp [parsePipeline, h, consumeTokens_command]
  · simp [parsePipeline, tokenize, tokenizeAux, flushWord, isSpaceChar,
      consumeTokens]

/-- Witness for C6 at the spec's concrete pipeline. -/
theorem parsePipeline_first_token_and_redirects_witness :
    (parsePipeline "sort < input.txt > output.txt").command = "sort" :=
  parsePipeline_first_token_and_redirects.1 "sort < input.txt > output.txt"
    "sort" ["<", "input.txt", ">", "output.txt"]
    (by simp [tokenize, tokenizeAux, flushWord, isSpaceChar])

/-- C7: redirection operators are standalone tokens even with no
separating space, `>>` is recognized greedily before `>`/`<`, and the
two concrete examples tokenize as the spec states. -/
theorem tokenize_operators_standalone (s1 s2 : String)
    (h1 : s1 ≠ "") (h2 : s2 ≠ "")
    (hw1 : ∀ c ∈ s1.data, wordChar c = true)
    (hw2 : ∀ c ∈ s2.data, wordChar c = true) :
    tokenize (s1 ++ ">" ++ s2) = [s1, ">", s2] ∧
    tokenize (s1 ++ ">>" ++ s2) = [s1, ">>", s2] ∧
    tokenize (s1 ++ "<" ++ s2) = [s1, "<", s2] ∧
    tokenize "echo test > file.txt" = ["echo", "test", ">", "file.txt"] ∧
    tokenize "echo test >> file.txt" = ["echo", "test", ">>", "file.txt"] := by
  obtain ⟨c2, cs2, hs2⟩ : ∃ c2 cs2, s2.data = c2 :: cs2 := by
    cases hd : s2.data with
    | nil => exact absurd hd (string_data_ne_nil h2)
    | cons a l => exact ⟨a, l, rfl⟩
  have hc2 := hw2 c2 (by rw [hs2]; simp)
  simp only [wordChar, Bool.and_eq_true, Bool.not_eq_true',
    decide_eq_false_iff_not] at hc2
  obtain ⟨⟨⟨⟨_, _⟩, _⟩, hc2gt⟩, _⟩ := hc2
  have htail : tokenizeAux s2.data .noQuote [] = [s2] :=
    tokenizeAux_word_only s2 h2 hw2
  have hflush : flushWord s1.data = [s1] := by
    simp [flushWord, string_data_ne_nil h1, stringMk_data]
  refine ⟨?_, ?_, ?_, ?_, ?_⟩
  · have hdata : (s1 ++ ">" ++ s2).data = s1.data ++ ('>' :: s2.data) := by
      simp [String.data_append]
    have hne : ¬s2.data.head? = some '>' := by
      rw [hs2]
      simp [hc2gt]
    rw [tokenize]
    show tokenizeAux (s1 ++ ">" ++ s2).data .noQuote [] = _
    rw [hdata, tokenizeAux_word s1.data _ [] hw1, List.nil_append,
      tokenizeAux_gt_step _ _ hne, hflush, htail]
    rfl
  · have hdata : (s1 ++ ">>" ++ s2).data = s1.data ++ ('>' :: '>' :: s2.data) := by
      simp [String.data_append]
    rw [tokenize]
    show tokenizeAux (s1 ++ ">>" ++ s2).data .noQuote [] = _
    rw [hdata, tokenizeAux_word s1.data _ [] hw1, List.nil_append,
      tokenizeAux_gtgt_step, hflush, htail]
    rfl
  · have hdata : (s1 ++ "<" ++ s2).data = s1.data ++ ('<' :: s2.data) := by
      simp [String.data_append]
    rw [tokenize]
    show tokenizeAux (s1 ++ "<" ++ s2).data .noQuote [] = _
    rw [hdata, tokenizeAux_word s1.data _ [] hw1, List.nil_append,
      tokenizeAux_lt_step, hflush, htail]
    rfl
  · simp [tokenize, tokenizeAux, flushWord, isSpaceChar]
  · simp [tokenize, tokenizeAux, flushWord, isSpaceChar]

/-- Witness for C7 at the spec's adjacency example `file.txt>out.txt`. -/
theorem tokenize_operators_standalone_witness :
    tokenize ("file.txt" ++ ">" ++ "out.txt") = ["file.txt", ">", "out.txt"] :=
  (tokenize_operators_standalone "file.txt" "out.txt" (by decide) (by decide)
    (by decide) (by decide)).1

/-- C2: for two simple commands joined by `&&` the parse has exactly two
statements, the first with operator `&&`; and when the launched command
of the first statement exits non-zero, `process` returns that code with
`continueShell = true` without executing the second statement. -/
theorem process_andand_stops_on_failure (s1 s2 : String)
    (h1 : SimpleCmd s1) (h2 : SimpleCmd s2)
    (e : String → List String → ExecValue) (n : Int)
    (hne1 : (parsePipeline s1).command ≠ "exit")
    (hne2 : (parsePipeline s1).command ≠ "quit")
    (hx : e (suffixJs (parsePipeline s1).command) (parsePipeline s1).args
      = ExecValue.intVal n)
    (hn : n ≠ 0) :
    (parseCommand (s1 ++ " && " ++ s2)).statements =
      [{ pipelines := [parsePipeline s1], operator := "&&" },
       { pipelines := [parsePipeline s2], operator := "" }] ∧
    process e (s1 ++ " && " ++ s2) =
      ⟨n, true, [parsePipeline s1],
        [(suffixJs (parsePipeline s1).command, (parsePipeline s1).args)], []⟩ := by
  obtain ⟨h1ne, h1all, h1trim⟩ := h1
  obtain ⟨h2ne, h2all, h2trim⟩ := h2
  rw [List.all_eq_true] at h1all h2all
  have hs1stmt : ∀ c ∈ s1.data, stmtPlainChar c = true := by
    intro c hc
    have := h1all c hc
    simp only [Bool.and_eq_true] at this
    exact this.1
  have hs1pipe : ∀ c ∈ s1.data, pipePlainChar c = true := by
    intro c hc
    have := h1all c hc
    simp only [Bool.and_eq_true] at this
    exact this.2
  have hs2stmt : ∀ c ∈ s2.data, stmtPlainChar c = true := by
    intro c hc
    have := h2all c hc
    simp only [Bool.and_eq_true] at this
    exact this.1
  have hs2pipe : ∀ c ∈ s2.data, pipePlainChar c = true := by
    intro c hc
    have := h2all c hc
    simp only [Bool.and_eq_true] at this
    exact this.2
  have hdata : (s1 ++ " && " ++ s2).data
      = (s1.data ++ [' ']) ++ ('&' :: '&' :: (' ' :: s2.data)) := by
    have hm : (" && " : String).data = [' ', '&', '&', ' '] := rfl
    simp [String.data_append, hm]
  have hops : splitStatementsOps (s1 ++ " && " ++ s2) = [(s1, "&&"), (s2, "")] := by
    rw [splitStatementsOps]
    show splitStatementsAux (s1 ++ " && " ++ s2).data .noQuote [] = _
    have hsp1space : ∀ c ∈ s1.data ++ [' '], stmtPlainChar c = true := by
      intro c hc
      rcases List.mem_append.mp hc with hc | hc
      · exact hs1stmt c hc
      · simp at hc
        rw [hc]
        decide
    have hsp2space : ∀ c ∈ ' ' :: s2.data, stmtPlainChar c = true := by
      intro c hc
      rcases List.mem_cons.mp hc with hc | hc
      · rw [hc]
        decide
      · exact hs2stmt c hc
    rw [hdata, splitStatementsAux_plain _ _ [] hsp1space, List.nil_append,
      splitStatementsAux_andand_step, splitStatementsAux_plain_only _ hsp2space]
    have hcp1 : closePiece (s1.data ++ [' ']) "&&" = [(s1, "&&")] := by
      simp [closePiece, trimChars_append_space, h1trim,
        string_data_ne_nil h1ne, stringMk_data]
    have hcp2 : closePiece (' ' :: s2.data) "" = [(s2, "")] := by
      simp [closePiece, trimChars_cons_space, h2trim,
        string_data_ne_nil h2ne, stringMk_data]
    rw [hcp1, hcp2]
    rfl
  have hsp1 : splitPipes s1 = [s1] := by
    rw [splitPipes]
    show splitPipesAux s1.data .noQuote [] = _
    rw [splitPipesAux_plain_only _ hs1pipe]
    simp [closePipePiece, h1trim, string_data_ne_nil h1ne, stringMk_data]
  have hsp2 : splitPipes s2 = [s2] := by
    rw [splitPipes]
    show splitPipesAux s2.data .noQuote [] = _
    rw [splitPipesAux_plain_only _ hs2pipe]
    simp [closePipePiece, h2trim, string_data_ne_nil h2ne, stringMk_data]
  have hstmts : (parseCommand (s1 ++ " && " ++ s2)).statements =
      [{ pipelines := [parsePipeline s1], operator := "&&" },
       { pipelines := [parsePipeline s2], operator := "" }] := by
    simp [parseCommand, hops, hsp1, hsp2]
  refine ⟨hstmts, ?_⟩
  have hguard : ¬((parsePipeline s1).command = "exit" ∨
      (parsePipeline s1).command = "quit") := by
    tauto
  simp [process, hstmts, runStatements, runPipelines, hguard, hx, hn]

/-- Witness for C2: `mkdir test && cd test` with a collaborator whose
scripts exit 1: only `mkdir.js` runs and `process` returns `(1, true)`. -/
theorem process_andand_stops_on_failure_witness :
    process execAllFail "mkdir test && cd test" =
      ⟨1, true, [{ command := "mkdir", args := ["test"] }],
        [("mkdir.js", ["test"])], []⟩ := by
  have hpp : parsePipeline "mkdir test" = { command := "mkdir", args := ["test"] } := by
    simp [parsePipeline, tokenize, tokenizeAux, flushWord, isSpaceChar, consumeTokens]
  have hne1 : (parsePipeline "mkdir test").command ≠ "exit" := by
    rw [hpp]
    decide
  have hne2 : (parsePipeline "mkdir test").command ≠ "quit" := by
    rw [hpp]
    decide
  have hx : execAllFail (suffixJs (parsePipeline "mkdir test").command)
      (parsePipeline "mkdir test").args = ExecValue.intVal 1 := rfl
  have h := (process_andand_stops_on_failure "mkdir test" "cd test"
    (by decide) (by decide) execAllFail 1 hne1 hne2 hx (by decide)).2
  rw [hpp] at h
  exact h

set_option maxRecDepth 4000 in
/-- C5: an argument wrapped in matching single or double quotes whose
content holds an unescaped `|`, `;` or space is not split by
`splitStatements` or `splitPipes`, and the parsed `Args` element is the
quoted content with the quote characters stripped. -/
theorem quoted_argument_not_split (cmdw inner : String) (q : Char)
    (hq : q = '\'' ∨ q = '"')
    (hcw : cmdw ≠ "") (hbare : ∀ c ∈ cmdw.data, bareChar c = true)
    (hin : inner ≠ "") (hiq : ∀ c ∈ inner.data, c ≠ q)
    (hcont : ∃ c ∈ inner.data, c = '|' ∨ c = ';' ∨ c = ' ') :
    splitStatements (cmdw ++ " " ++ ⟨[q]⟩ ++ inner ++ ⟨[q]⟩)
      = [cmdw ++ " " ++ ⟨[q]⟩ ++ inner ++ ⟨[q]⟩] ∧
    splitPipes (cmdw ++ " " ++ ⟨[q]⟩ ++ inner ++ ⟨[q]⟩)
      = [cmdw ++ " " ++ ⟨[q]⟩ ++ inner ++ ⟨[q]⟩] ∧
    (parseCommand (cmdw ++ " " ++ ⟨[q]⟩ ++ inner ++ ⟨[q]⟩)).statements
      = [{ pipelines := [{ command := cmdw, args := [inner] }], operator := "" }] := by
  obtain ⟨c0, cs0, hc0⟩ : ∃ c0 cs0, cmdw.data = c0 :: cs0 := by
    cases hd : cmdw.data with
    | nil => exact absurd hd (string_data_ne_nil hcw)
    | cons a l => exact ⟨a, l, rfl⟩
  have hsp0 : isSpaceChar c0 = false := by
    have := hbare c0 (by rw [hc0]; simp)
    simp only [bareChar, wordChar, Bool.and_eq_true, Bool.not_eq_true'] at this
    tauto
  have hwordw : ∀ c ∈ cmdw.data, wordChar c = true := by
    intro c hc
    have := hbare c hc
    simp only [bareChar, Bool.and_eq_true] at this
    tauto
  have hstmtw : ∀ c ∈ cmdw.data ++ [' '], stmtPlainChar c = true := by
    intro c hc
    rcases List.mem_append.mp hc with hc | hc
    · have := hbare c hc
      simp only [bareChar, Bool.and_eq_true] at this
      tauto
    · simp at hc
      rw [hc]
      decide
  have hpipew : ∀ c ∈ cmdw.data ++ [' '], pipePlainChar c = true := by
    intro c hc
    rcases List.mem_append.mp hc with hc | hc
    · have := hbare c hc
      simp only [bareChar, Bool.and_eq_true] at this
      tauto
    · simp at hc
      rw [hc]
      decide
  have hinne : inner ≠ "<" ∧ inner ≠ ">" ∧ inner ≠ ">>" := by
    obtain ⟨c, hcm, hcor⟩ := hcont
    refine ⟨?_, ?_, ?_⟩ <;> intro heq <;> rw [heq] at hcm
    · have hx : c ∈ ['<'] := hcm
      simp at hx
      rw [hx] at hcor
      simp at hcor
    · have hx : c ∈ ['>'] := hcm
      simp at hx
      rw [hx] at hcor
      simp at hcor
    · have hx : c ∈ ['>', '>'] := hcm
      simp at hx
      rw [hx] at hcor
      simp at hcor
  rcases hq with rfl | rfl
  · have hdataA : (cmdw ++ " " ++ (⟨['\'']⟩ : String) ++ inner ++ ⟨['\'']⟩).data
        = (cmdw.data ++ [' ']) ++ ('\'' :: (inner.data ++ ['\''])) := by
      simp [String.data_append]
    have hdataB : (cmdw ++ " " ++ (⟨['\'']⟩ : String) ++ inner ++ ⟨['\'']⟩).data
        = cmdw.data ++ (' ' :: ('\'' :: (inner.data ++ ['\'']))) := by
      simp [String.data_append]
    have hcurL : cmdw.data ++ ' ' :: '\'' :: (inner.data ++ ['\''])
        = (cmdw ++ " " ++ (⟨['\'']⟩ : String) ++ inner ++ ⟨['\'']⟩).data :=
      hdataB.symm
    have htrim : trimChars (cmdw.data ++ ' ' :: '\'' :: (inner.data ++ ['\'']))
        = cmdw.data ++ ' ' :: '\'' :: (inner.data ++ ['\'']) := by
      have hcur2 : cmdw.data ++ ' ' :: '\'' :: (inner.data ++ ['\''])
          = c0 :: ((cs0 ++ ' ' :: '\'' :: inner.data) ++ ['\'']) := by
        simp [hc0]
      rw [hcur2]
      have := trimChars_quoted (l := cs0 ++ ' ' :: '\'' :: inner.data)
        (q := '\'') hsp0 (by decide)
      simpa using this
    have hopsS : splitStatementsOps (cmdw ++ " " ++ ⟨['\'']⟩ ++ inner ++ ⟨['\'']⟩)
        = [(cmdw ++ " " ++ ⟨['\'']⟩ ++ inner ++ ⟨['\'']⟩, "")] := by
      show splitStatementsAux
        (cmdw ++ " " ++ (⟨['\'']⟩ : String) ++ inner ++ ⟨['\'']⟩).data .noQuote [] = _
      rw [hdataA, splitStatementsAux_plain _ _ [] hstmtw, List.nil_append,
        splitStatementsAux_squote_open,
        splitStatementsAux_inSingle inner.data ['\''] _ hiq,
        splitStatementsAux_squote_close, splitStatementsAux_nil]
      have hX : (((cmdw.data ++ [' ']) ++ ['\'']) ++ inner.data) ++ ['\'']
          = cmdw.data ++ ' ' :: '\'' :: (inner.data ++ ['\'']) := by
        simp
      rw [hX]
      simp only [closePiece]
      rw [htrim, if_neg (by simp), hcurL, stringMk_data]
    have hpipS : splitPipes (cmdw ++ " " ++ ⟨['\'']⟩ ++ inner ++ ⟨['\'']⟩)
        = [cmdw ++ " " ++ ⟨['\'']⟩ ++ inner ++ ⟨['\'']⟩] := by
      show splitPipesAux
        (cmdw ++ " " ++ (⟨['\'']⟩ : String) ++ inner ++ ⟨['\'']⟩).data .noQuote [] = _
      rw [hdataA, splitPipesAux_plain _ _ [] hpipew, List.nil_append,
        splitPipesAux_squote_open,
        splitPipesAux_inSingle inner.data ['\''] _ hiq,
        splitPipesAux_squote_close, splitPipesAux_nil]
      have hX : (((cmdw.data ++ [' ']) ++ ['\'']) ++ inner.data) ++ ['\'']
          = cmdw.data ++ ' ' :: '\'' :: (inner.data ++ ['\'']) := by
        simp
      rw [hX]
      simp only [closePipePiece]
      rw [htrim, if_neg (by simp), hcurL, stringMk_data]
    have htokS : tokenize (cmdw ++ " " ++ ⟨['\'']⟩ ++ inner ++ ⟨['\'']⟩)
        = [cmdw, inner] := by
      show tokenizeAux
        (cmdw ++ " " ++ (⟨['\'']⟩ : String) ++ inner ++ ⟨['\'']⟩).data .noQuote [] = _
      rw [hdataB, tokenizeAux_word cmdw.data _ [] hwordw, List.nil_append,
        tokenizeAux_space_step, tokenizeAux_squote_open,
        tokenizeAux_inSingle inner.data ['\''] [] hiq,
        tokenizeAux_squote_close]
      simp [tokenizeAux, flushWord, string_data_ne_nil hin,
        string_data_ne_nil hcw, stringMk_data]
    have hplS : parsePipeline (cmdw ++ " " ++ ⟨['\'']⟩ ++ inner ++ ⟨['\'']⟩)
        = { command := cmdw, args := [inner] } := by
      simp [parsePipeline, htokS, consumeTokens, hinne.1, hinne.2.1, hinne.2.2]
    refine ⟨?_, hpipS, ?_⟩
    · simp [splitStatements, hopsS]
    · simp [parseCommand, hopsS, hpipS, hplS]
  · have hdataA : (cmdw ++ " " ++ (⟨['"']⟩ : String) ++ inner ++ ⟨['"']⟩).data
        = (cmdw.data ++ [' ']) ++ ('"' :: (inner.data ++ ['"'])) := by
      simp [String.data_append]
    have hdataB : (cmdw ++ " " ++ (⟨['"']⟩ : String) ++ inner ++ ⟨['"']⟩).data
        = cmdw.data ++ (' ' :: ('"' :: (inner.data ++ ['"']))) := by
      simp [String.data_append]
    have hcurL : cmdw.data ++ ' ' :: '"' :: (inner.data ++ ['"'])
        = (cmdw ++ " " ++ (⟨['"']⟩ : String) ++ inner ++ ⟨['"']⟩).data :=
      hdataB.symm
    have htrim : trimChars (cmdw.data ++ ' ' :: '"' :: (inner.data ++ ['"']))
        = cmdw.data ++ ' ' :: '"' :: (inner.data ++ ['"']) := by
      have hcur2 : cmdw.data ++ ' ' :: '"' :: (inner.data ++ ['"'])
          = c0 :: ((cs0 ++ ' ' :: '"' :: inner.data) ++ ['"']) := by
        simp [hc0]
      rw [hcur2]
      have := trimChars_quoted (l := cs0 ++ ' ' :: '"' :: inner.data)
        (q := '"') hsp0 (by decide)
      simpa using this
    have hopsS : splitStatementsOps (cmdw ++ " " ++ ⟨['"']⟩ ++ inner ++ ⟨['"']⟩)
        = [(cmdw ++ " " ++ ⟨['"']⟩ ++ inner ++ ⟨['"']⟩, "")] := by
      show splitStatementsAux
        (cmdw ++ " " ++ (⟨['"']⟩ : String) ++ inner ++ ⟨['"']⟩).data .noQuote [] = _
      rw [hdataA, splitStatementsAux_plain _ _ [] hstmtw, List.nil_append,
        splitStatementsAux_dquote_open,
        splitStatementsAux_inDouble inner.data ['"'] _ hiq,
        splitStatementsAux_dquote_close, splitStatementsAux_nil]
      have hX : (((cmdw.data ++ [' ']) ++ ['"']) ++ inner.data) ++ ['"']
          = cmdw.data ++ ' ' :: '"' :: (inner.data ++ ['"']) := by
        simp
      rw [hX]
      simp only [closePiece]
      rw [htrim, if_neg (by simp), hcurL, stringMk_data]
    have hpipS : splitPipes (cmdw ++ " " ++ ⟨['"']⟩ ++ inner ++ ⟨['"']⟩)
        = [cmdw ++ " " ++ ⟨['"']⟩ ++ inner ++ ⟨['"']⟩] := by
      show splitPipesAux
        (cmdw ++ " " ++ (⟨['"']⟩ : String) ++ inner ++ ⟨['"']⟩).data .noQuote [] = _
      rw [hdataA, splitPipesAux_plain _ _ [] hpipew, List.nil_append,
        splitPipesAux_dquote_open,
        splitPipesAux_inDouble inner.data ['"'] _ hiq,
        splitPipesAux_dquote_close, splitPipesAux_nil]
      have hX : (((cmdw.data ++ [' ']) ++ ['"']) ++ inner.data) ++ ['"']
          = cmdw.data ++ ' ' :: '"' :: (inner.data ++ ['"']) := by
        simp
      rw [hX]
      simp only [closePipePiece]
      rw [htrim, if_neg (by simp), hcurL, stringMk_data]
    have htokS : tokenize (cmdw ++ " " ++ ⟨['"']⟩ ++ inner ++ ⟨['"']⟩)
        = [cmdw, inner] := by
      show tokenizeAux
        (cmdw ++ " " ++ (⟨['"']⟩ : String) ++ inner ++ ⟨['"']⟩).data .noQuote [] = _
      rw [hdataB, tokenizeAux_word cmdw.data _ [] hwordw, List.nil_append,
        tokenizeAux_space_step, tokenizeAux_dquote_open,
        tokenizeAux_inDouble inner.data ['"'] [] hiq,
        tokenizeAux_dquote_close]
      simp [tokenizeAux, flushWord, string_data_ne_nil hin,
        string_data_ne_nil hcw, stringMk_data]
    have hplS : parsePipeline (cmdw ++ " " ++ ⟨['"']⟩ ++ inner ++ ⟨['"']⟩)
        = { command := cmdw, args := [inner] } := by
      simp [parsePipeline, htokS, consumeTokens, hinne.1, hinne.2.1, hinne.2.2]
    refine ⟨?_, hpipS, ?_⟩
    · simp [splitStatements, hopsS]
    · simp [parseCommand, hopsS, hpipS, hplS]

/-- Witness for C5: `echo "a | b;c"` — the quoted pipe, semicolon and
spaces do not split, and the argument is the unquoted content. -/
theorem quoted_argument_not_split_witness :
    splitStatements ("echo" ++ " " ++ ⟨['"']⟩ ++ "a | b;c" ++ ⟨['"']⟩)
      = ["echo" ++ " " ++ ⟨['"']⟩ ++ "a | b;c" ++ ⟨['"']⟩] ∧
    splitPipes ("echo" ++ " " ++ ⟨['"']⟩ ++ "a | b;c" ++ ⟨['"']⟩)
      = ["echo" ++ " " ++ ⟨['"']⟩ ++ "a | b;c" ++ ⟨['"']⟩] ∧
    (parseCommand ("echo" ++ " " ++ ⟨['"']⟩ ++ "a | b;c" ++ ⟨['"']⟩)).statements
      = [{ pipelines := [{ command := "echo", args := ["a | b;c"] }],
           operator := "" }] :=
  quoted_argument_not_split "echo" "a | b;c" '"' (Or.inr rfl) (by decide)
    (by decide) (by decide) (by decide) ⟨'|', by decide, by decide⟩

end Jsh
